import Mathlib

/- Verification of the stablecoin-yields API (src/app.py).

   Embedding conventions: Python strings are lists of characters, with the
   lower and upper methods embedded through Char.toLower and Char.toUpper;
   Python numbers (the floats produced by float() and the JSON numbers) are
   rationals; a JSON object field is an Option, none meaning the key is
   absent; a value that is present but not a number (JSON null, Python None)
   is the explicit constructor JNum.jnull, because dict.get only substitutes
   its default for an absent key, not for a stored null. Code paths on which
   the Python program raises (a comparison between None and a number, an
   uncaught ValueError from int() or float()) are modelled with Except or a
   dedicated error constructor. -/

namespace StablecoinYields

/-- Lowercasing of a string, modelling the Python lower method (ASCII). -/
def lowerStr (s : List Char) : List Char := s.map Char.toLower

/-- Uppercasing of a string, modelling the Python upper method (ASCII). -/
def upperStr (s : List Char) : List Char := s.map Char.toUpper

/-- Substring test: the Python membership test on strings, needle in hay. -/
def subStr (needle : List Char) : List Char → Bool
  | [] => needle.isEmpty
  | c :: rest => needle.isPrefixOf (c :: rest) || subStr needle rest

theorem subStr_iff (n : List Char) : ∀ h : List Char, subStr n h = true ↔ n <:+: h := by
  intro h
  induction h with
  | nil =>
    simp only [subStr, List.isEmpty_iff, List.infix_nil]
  | cons c rest ih =>
    simp only [subStr, Bool.or_eq_true, ih, List.infix_cons_iff,
      List.isPrefixOf_iff_prefix]

/-- The stablecoin identifier list of cached_yields (src/app.py line 213). -/
def stablecoinIdentifiers : List (List Char) :=
  ["USDC", "USDT", "DAI", "BUSD", "TUSD", "USDD", "FRAX", "LUSD"].map String.toList

/-- The reputation platform list of cached_yields (src/app.py line 259). -/
def topPlatforms : List (List Char) :=
  ["aave", "compound", "curve", "yearn", "maker"].map String.toList

def unknownStr : List Char := "Unknown".toList

/-- A JSON value stored under a numeric field: a number, or a present but
non-numeric value such as JSON null (Python None). -/
inductive JNum where
  | jnull : JNum
  | jnum (q : ℚ) : JNum
deriving DecidableEq

/-- A raw pool record as consumed by cached_yields. A field is none when the
key is absent from the JSON object; string-valued fields are modelled as
absent or a string. -/
structure RawPool where
  pool : Option (List Char) := none
  project : Option (List Char) := none
  symbol : Option (List Char) := none
  chain : Option (List Char) := none
  apy : Option JNum := none
  tvlUsd : Option JNum := none
deriving DecidableEq

/-- The enhanced pool dictionary built in cached_yields (src/app.py lines
267-279), one field per dictionary key. -/
structure EnhancedPool where
  pool_id : List Char
  platform : List Char
  symbol : List Char
  chain : List Char
  primary_stablecoin : List Char
  apy : ℚ
  tvl_usd : ℚ
  risk_level : List Char
  risk_factors : List (List Char)
  il_risk : List Char
  last_updated : List Char
deriving DecidableEq

/-- Value of one entry of the enhanced pool dictionary. -/
inductive FieldVal where
  | fstr (s : List Char)
  | fnum (q : ℚ)
  | flist (l : List (List Char))
deriving DecidableEq

/-- The enhanced pool dictionary of src/app.py lines 267-279 as the ordered
list of its key-value pairs, exactly the keys the code writes. -/
def toFields (e : EnhancedPool) : List (List Char × FieldVal) :=
  [("pool_id".toList, FieldVal.fstr e.pool_id),
   ("platform".toList, FieldVal.fstr e.platform),
   ("symbol".toList, FieldVal.fstr e.symbol),
   ("chain".toList, FieldVal.fstr e.chain),
   ("primary_stablecoin".toList, FieldVal.fstr e.primary_stablecoin),
   ("apy".toList, FieldVal.fnum e.apy),
   ("tvl_usd".toList, FieldVal.fnum e.tvl_usd),
   ("risk_level".toList, FieldVal.fstr e.risk_level),
   ("risk_factors".toList, FieldVal.flist e.risk_factors),
   ("il_risk".toList, FieldVal.fstr e.il_risk),
   ("last_updated".toList, FieldVal.fstr e.last_updated)]

/-- Risk level and risk factors as computed in cached_yields, src/app.py
lines 240-264: base Medium, then the APY rules, then the TVL rules, then the
platform reputation rule, in program order. -/
def riskAssess (apy tvl : ℚ) (project : List Char) : List Char × List (List Char) :=
  let lvl1 := if 15 < apy then "High".toList
    else if 10 < apy then "Medium-High".toList else "Medium".toList
  let fac1 : List (List Char) := if 15 < apy then ["Unusually high APY".toList]
    else if 10 < apy then ["Higher than average APY".toList] else []
  let lvl2 := if tvl < 1000000 then "High".toList else lvl1
  let fac2 := if tvl < 1000000 then fac1 ++ ["Very low TVL".toList]
    else if tvl < 10000000 then fac1 ++ ["Moderate TVL".toList] else fac1
  let lvl3 :=
    if project ∈ topPlatforms then
      if lvl2 = "Medium".toList then "Low-Medium".toList
      else if lvl2 = "Medium-High".toList then "Medium".toList
      else lvl2
    else lvl2
  (lvl3, fac2)

/-- Processing of one raw record by the cached_yields loop (src/app.py lines
217-281): the stablecoin test, the filter with Python short-circuit
evaluation, the risk assessment and the construction of the enhanced pool.
The error value models the TypeError Python raises when one of the
comparisons meets the non-numeric value left in place by dict.get. -/
def processPool (platform_key chain_key stablecoin_key : List Char)
    (min_apy_key min_tvl_key : ℚ) (now : List Char) (pool : RawPool) :
    Except Unit (Option EnhancedPool) :=
  let pool_symbol := upperStr (pool.symbol.getD [])
  if stablecoinIdentifiers.any (fun s => subStr s pool_symbol) then
    let project := lowerStr (pool.project.getD [])
    let pool_chain := lowerStr (pool.chain.getD [])
    if (platform_key.isEmpty || subStr platform_key project) &&
        (chain_key.isEmpty || subStr chain_key pool_chain) &&
        (stablecoin_key.isEmpty || subStr stablecoin_key pool_symbol) then
      match pool.apy.getD (JNum.jnum 0) with
      | JNum.jnull => Except.error ()
      | JNum.jnum apy =>
        if min_apy_key ≤ apy then
          match pool.tvlUsd.getD (JNum.jnum 0) with
          | JNum.jnull => Except.error ()
          | JNum.jnum tvl =>
            if min_tvl_key ≤ tvl then
              Except.ok (some
                { pool_id := pool.pool.getD []
                  platform := pool.project.getD unknownStr
                  symbol := pool_symbol
                  chain := pool.chain.getD unknownStr
                  primary_stablecoin :=
                    (stablecoinIdentifiers.find? (fun s => subStr s pool_symbol)).getD unknownStr
                  apy := apy
                  tvl_usd := tvl
                  risk_level := (riskAssess apy tvl project).1
                  risk_factors := (riskAssess apy tvl project).2
                  il_risk := if subStr "stableswap".toList (lowerStr pool_symbol)
                    then "Low".toList else "Medium".toList
                  last_updated := now })
            else Except.ok none
        else Except.ok none
    else Except.ok none
  else Except.ok none

/-- The filtered_pools accumulation of cached_yields (src/app.py lines
216-281): the records are processed in fetch order and the surviving
enhanced pools are appended in this order; the first error aborts, as an
uncaught Python exception would. -/
def buildFiltered (platform_key chain_key stablecoin_key : List Char)
    (min_apy_key min_tvl_key : ℚ) (now : List Char) :
    List RawPool → Except Unit (List EnhancedPool)
  | [] => Except.ok []
  | pool :: rest =>
    match processPool platform_key chain_key stablecoin_key min_apy_key min_tvl_key now pool with
    | Except.error e => Except.error e
    | Except.ok none =>
      buildFiltered platform_key chain_key stablecoin_key min_apy_key min_tvl_key now rest
    | Except.ok (some ep) =>
      (buildFiltered platform_key chain_key stablecoin_key min_apy_key min_tvl_key now rest).map
        (fun l => ep :: l)

/-- Insertion of a pool into a list already sorted by descending APY, placing
the new pool before the first pool whose APY is not larger; together with
sortPools this is a stable descending sort, the behaviour of the Python call
sorted(filtered_pools, key apy, reverse True) on src/app.py line 284. -/
def insertPool (x : EnhancedPool) : List EnhancedPool → List EnhancedPool
  | [] => [x]
  | y :: ys => if y.apy ≤ x.apy then x :: y :: ys else y :: insertPool x ys

/-- Stable sort by descending APY (src/app.py line 284). -/
def sortPools (l : List EnhancedPool) : List EnhancedPool := l.foldr insertPool []

/-- Python list slicing l[:n], including the negative-bound case. -/
def pyTake (n : Int) (l : List EnhancedPool) : List EnhancedPool :=
  if 0 ≤ n then l.take n.toNat else l.take (l.length - (-n).toNat)

/-- The cached_yields pipeline body on fetched data (src/app.py lines
212-286): stablecoin filtering, query filtering, annotation, the stable
descending sort by APY, and the truncation to limit_key entries. -/
def cachedYields (platform_key chain_key stablecoin_key : List Char) (limit_key : Int)
    (min_apy_key min_tvl_key : ℚ) (now : List Char) (data : List RawPool) :
    Except Unit (List EnhancedPool) :=
  (buildFiltered platform_key chain_key stablecoin_key min_apy_key min_tvl_key now data).map
    (fun fp => pyTake limit_key (sortPools fp))

/-- A raw query-string parameter as seen by a numeric conversion: absent,
a string int() accepts, a string only float() accepts, or a string neither
accepts. -/
inductive RawParam where
  | missing : RawParam
  | intStr (n : Int) : RawParam
  | floatStr (q : ℚ) : RawParam
  | malformed : RawParam
deriving DecidableEq

/-- Python int(request.args.get(key, default)): the default when the key is
absent, the parsed integer on an integral string, and none (an uncaught
ValueError) on any other string. -/
def parseIntParam (p : RawParam) (default : Int) : Option Int :=
  match p with
  | RawParam.missing => some default
  | RawParam.intStr n => some n
  | RawParam.floatStr _ => none
  | RawParam.malformed => none

/-- Python float(request.args.get(key, default)): the default when the key is
absent, the parsed number on a numeric string, and none (an uncaught
ValueError) otherwise. -/
def parseFloatParam (p : RawParam) (default : ℚ) : Option ℚ :=
  match p with
  | RawParam.missing => some default
  | RawParam.intStr n => some (n : ℚ)
  | RawParam.floatStr q => some q
  | RawParam.malformed => none

/-- The raw query string of the yields endpoint. -/
structure RawQuery where
  platform : Option (List Char) := none
  chain : Option (List Char) := none
  stablecoin : Option (List Char) := none
  limit : RawParam := RawParam.missing
  min_apy : RawParam := RawParam.missing
  min_tvl : RawParam := RawParam.missing

/-- The validated query parameters of the yields endpoint. -/
structure QuerySpec where
  platform : List Char
  chain : List Char
  stablecoin : List Char
  limit : Int
  minApy : ℚ
  minTvl : ℚ
deriving DecidableEq

/-- Parameter extraction of get_yields (src/app.py lines 190-202): the string
parameters are defaulted to the empty string and case-folded; the numeric
parameters are parsed inside one try block whose ValueError handler resets
all three to their defaults, and a successfully parsed limit is clamped by
max(1, min(limit, 100)). -/
def parseQuery (r : RawQuery) : QuerySpec :=
  let platform := lowerStr (r.platform.getD [])
  let chain := lowerStr (r.chain.getD [])
  let stablecoin := upperStr (r.stablecoin.getD [])
  match parseIntParam r.limit 20, parseFloatParam r.min_apy 0, parseFloatParam r.min_tvl 0 with
  | some l, some a, some t => ⟨platform, chain, stablecoin, max 1 (min l 100), a, t⟩
  | _, _, _ => ⟨platform, chain, stablecoin, 20, 0, 0⟩

/-- The yields endpoint on successfully fetched data: parameter extraction
followed by the cached_yields pipeline (src/app.py lines 189-292). -/
def getYields (r : RawQuery) (now : List Char) (data : List RawPool) :
    Except Unit (List EnhancedPool) :=
  let q := parseQuery r
  cachedYields q.platform q.chain q.stablecoin q.limit q.minApy q.minTvl now data

/-- The memoization key cachetools builds for cached_yields: the tuple of the
six call arguments, one per QuerySpec parameter (src/app.py lines 204-205 and
290). The string cache_key on line 289 is computed but never used. -/
def yieldsCacheKey (q : QuerySpec) : List Char × List Char × List Char × Int × ℚ × ℚ :=
  (q.platform, q.chain, q.stablecoin, q.limit, q.minApy, q.minTvl)

/-- The TTL of yield_cache (src/app.py line 13), in seconds. -/
def yieldTTL : ℕ := 600

/-- State of a TTLCache: the stored entries, each with its expiry instant.
The maxsize bound of the cachetools cache only triggers eviction and is not
reached in the two-call scenarios considered here. -/
structure TTLCacheState (κ π : Type) where
  entries : List (κ × π × ℕ)

/-- Lookup in a TTLCache at a given instant: an entry is returned only while
the current time is before its expiry. -/
def cacheLookup {κ π : Type} [DecidableEq κ] (now : ℕ) (k : κ) (c : TTLCacheState κ π) :
    Option π :=
  (c.entries.find? (fun e => decide (e.1 = k) && decide (now < e.2.2))).map (fun e => e.2.1)

/-- The cachetools cached-decorator behaviour around a compute function: on a
live entry return the stored payload without computing; otherwise compute,
store with expiry now + ttl, and return. The third component counts how many
times the compute function ran, which is how many upstream fetches the call
triggered. -/
def getOrCompute {κ π : Type} [DecidableEq κ] (now ttl : ℕ) (k : κ) (compute : π)
    (c : TTLCacheState κ π) : π × TTLCacheState κ π × ℕ :=
  match cacheLookup now k c with
  | some v => (v, c, 0)
  | none => (compute, ⟨(k, compute, now + ttl) :: c.entries⟩, 1)

/-- One item of the chart payload consumed by cached_historical; a field is
none when the key is absent. -/
structure HistItem where
  timestamp : Option (List Char) := none
  apy : Option ℚ := none
  tvlUsd : Option ℚ := none
deriving DecidableEq

/-- One processed data point of cached_historical (src/app.py lines 314-318). -/
structure HistPoint where
  date : List Char
  apy : ℚ
  tvl : ℚ
deriving DecidableEq

/-- Python list slicing l[-n:] as used on src/app.py line 313. -/
def pyTailSlice (n : Int) (l : List HistItem) : List HistItem :=
  if n = 0 then l
  else if 0 < n then l.drop (l.length - n.toNat)
  else l.drop (-n).toNat

/-- Result payload of cached_historical: the error dictionary on a missing or
empty fetch, the short payload without trend on fewer than two points, and
the full payload with trend otherwise. -/
inductive HistResult where
  | fetchFail (pid : List Char) : HistResult
  | short (pid : List Char) (pts : List HistPoint) : HistResult
  | full (pid : List Char) (pts : List HistPoint)
      (currentApy apyChange apyChangePct : ℚ) (trend : List Char) : HistResult
deriving DecidableEq

/-- The cached_historical body (src/app.py lines 304-335). Python treats both
a failed fetch and an empty chart as falsy, hence both give the error
payload; the trend computed on line 333 has three labels. -/
def cachedHistorical (pid : List Char) (days : Int) (data : Option (List HistItem)) :
    HistResult :=
  match data with
  | none => HistResult.fetchFail pid
  | some items =>
    if items.isEmpty then HistResult.fetchFail pid
    else
      let processed := (pyTailSlice days items).map
        (fun i => HistPoint.mk (i.timestamp.getD []) (i.apy.getD 0) (i.tvlUsd.getD 0))
      if 1 < processed.length then
        let currentApy := (processed.getLastD ⟨[], 0, 0⟩).apy
        let pastApy := (processed.headD ⟨[], 0, 0⟩).apy
        let apyChange := currentApy - pastApy
        let apyChangePct := if 0 < pastApy then apyChange / pastApy * 100 else 0
        HistResult.full pid processed currentApy apyChange apyChangePct
          (if 0 < apyChange then "Increasing".toList
            else if apyChange < 0 then "Decreasing".toList else "Stable".toList)
      else HistResult.short pid processed

/-- Response of the historical-yields endpoint: the unhandled ValueError of
the bare int() conversion, the 400 response on a missing pool id, or the
cached_historical payload. -/
inductive HistResponse where
  | unhandledError : HistResponse
  | badRequest : HistResponse
  | payload (r : HistResult) : HistResponse
deriving DecidableEq

/-- The get_historical_yields endpoint (src/app.py lines 296-337): days is
converted by int() with no surrounding try block, so a non-numeric value
raises before anything else; then the missing-pool-id check, then the
pipeline. -/
def getHistoricalYields (pool_id : Option (List Char)) (daysP : RawParam)
    (data : Option (List HistItem)) : HistResponse :=
  match parseIntParam daysP 30 with
  | none => HistResponse.unhandledError
  | some days =>
    if (pool_id.getD []).isEmpty then HistResponse.badRequest
    else HistResponse.payload (cachedHistorical (pool_id.getD []) days data)

/-- Outcome of the parameter extraction of get_portfolio_optimization. -/
inductive PortfolioParams where
  | unhandledError : PortfolioParams
  | params (risk : List Char) (amount : ℚ) : PortfolioParams
deriving DecidableEq

/-- The parameter boundary of get_portfolio_optimization (src/app.py lines
399-400): risk is defaulted and lowercased, amount is converted by float()
with no surrounding try block, so a non-numeric value raises before the
pipeline runs. -/
def portfolioBoundary (riskP : Option (List Char)) (amountP : RawParam) : PortfolioParams :=
  let risk := lowerStr (riskP.getD "medium".toList)
  match parseFloatParam amountP 10000 with
  | none => PortfolioParams.unhandledError
  | some amount => PortfolioParams.params risk amount

/-- Risk level derivation as worded in spec section 4.4: base Medium, the
high-APY rules, the absolute TVL override to High, then the reputation
downgrade which never applies when the level is already High. -/
def riskLevelSpecRules (apy tvl : ℚ) (platformLower : List Char) : List Char :=
  let base := if 15 < apy then "High".toList
    else if 10 < apy then "Medium-High".toList else "Medium".toList
  let base2 := if tvl < 1000000 then "High".toList else base
  if platformLower ∈ topPlatforms then
    if base2 = "Medium".toList then "Low-Medium".toList
    else if base2 = "Medium-High".toList then "Medium".toList
    else base2
  else base2

theorem riskAssess_fst_eq_spec (apy tvl : ℚ) (project : List Char) :
    (riskAssess apy tvl project).1 = riskLevelSpecRules apy tvl project := rfl

theorem riskAssess_not_top (apy tvl : ℚ) (p p' : List Char)
    (hp : p ∉ topPlatforms) (hp' : p' ∉ topPlatforms) :
    (riskAssess apy tvl p).1 = (riskAssess apy tvl p').1 := by
  simp only [riskAssess, hp, hp', if_neg, if_false]

theorem riskAssess_fst_mem (apy tvl : ℚ) (project : List Char) :
    (riskAssess apy tvl project).1 ∈
      ["Low-Medium".toList, "Medium".toList, "Medium-High".toList, "High".toList] := by
  simp only [riskAssess]
  split_ifs <;> simp

theorem mem_insertPool {x p : EnhancedPool} : ∀ {l : List EnhancedPool},
    p ∈ insertPool x l ↔ p = x ∨ p ∈ l := by
  intro l
  induction l with
  | nil => simp [insertPool]
  | cons y ys ih =>
    simp only [insertPool]
    split
    · simp
    · simp only [List.mem_cons, ih]
      tauto

theorem sorted_insertPool {x : EnhancedPool} {l : List EnhancedPool}
    (h : l.Pairwise (fun a b => b.apy ≤ a.apy)) :
    (insertPool x l).Pairwise (fun a b => b.apy ≤ a.apy) := by
  induction l with
  | nil => simp [insertPool]
  | cons y ys ih =>
    rw [List.pairwise_cons] at h
    simp only [insertPool]
    split
    · rename_i hyx
      refine List.Pairwise.cons ?_ (List.Pairwise.cons h.1 h.2)
      intro b hb
      rcases List.mem_cons.mp hb with hb | hb
      · exact hb ▸ hyx
      · exact le_trans (h.1 b hb) hyx
    · rename_i hyx
      push_neg at hyx
      refine List.Pairwise.cons ?_ (ih h.2)
      intro b hb
      rcases mem_insertPool.mp hb with hb | hb
      · exact hb ▸ le_of_lt hyx
      · exact h.1 b hb

theorem sorted_sortPools (l : List EnhancedPool) :
    (sortPools l).Pairwise (fun a b => b.apy ≤ a.apy) := by
  induction l with
  | nil => simp [sortPools]
  | cons x xs ih => exact sorted_insertPool ih

theorem mem_sortPools {p : EnhancedPool} : ∀ {l : List EnhancedPool},
    p ∈ sortPools l ↔ p ∈ l := by
  intro l
  induction l with
  | nil => simp [sortPools]
  | cons x xs ih =>
    show p ∈ insertPool x (sortPools xs) ↔ _
    rw [mem_insertPool]
    simp [ih]

theorem filter_insertPool (c : ℚ) (x : EnhancedPool) : ∀ (l : List EnhancedPool),
    (insertPool x l).filter (fun p => p.apy = c) =
      if x.apy = c then x :: l.filter (fun p => p.apy = c)
      else l.filter (fun p => p.apy = c) := by
  intro l
  induction l with
  | nil =>
    simp only [insertPool, List.filter]
    split_ifs with h <;> simp [h]
  | cons y ys ih =>
    simp only [insertPool]
    split
    · rename_i hyx
      by_cases hx : x.apy = c <;> simp [List.filter_cons, hx]
    · rename_i hyx
      push_neg at hyx
      by_cases hx : x.apy = c
      · have hy : ¬ (y.apy = c) := by
          intro hy
          exact absurd hyx (not_lt.mpr (le_of_eq (hy.trans hx.symm)))
        simp [List.filter_cons, hy, hx, ih]
      · simp only [List.filter_cons, ih, if_neg hx]

theorem filter_sortPools (c : ℚ) : ∀ (l : List EnhancedPool),
    (sortPools l).filter (fun p => p.apy = c) = l.filter (fun p => p.apy = c) := by
  intro l
  induction l with
  | nil => simp [sortPools]
  | cons x xs ih =>
    show (insertPool x (sortPools xs)).filter _ = _
    rw [filter_insertPool]
    by_cases hx : x.apy = c <;> simp [List.filter_cons, hx, ih]

theorem pyTake_eq_take (n : Int) (l : List EnhancedPool) :
    pyTake n l = l.take (if 0 ≤ n then n.toNat else l.length - (-n).toNat) := by
  unfold pyTake
  split <;> simp_all

theorem pyTake_sublist (n : Int) (l : List EnhancedPool) :
    List.Sublist (pyTake n l) l := by
  rw [pyTake_eq_take]
  exact List.take_sublist _ _

theorem mem_pyTake {p : EnhancedPool} {n : Int} {l : List EnhancedPool}
    (h : p ∈ pyTake n l) : p ∈ l :=
  (pyTake_sublist n l).mem h

theorem length_pyTake_le {n : Int} (hn : 0 ≤ n) (l : List EnhancedPool) :
    (pyTake n l).length ≤ n.toNat := by
  rw [pyTake_eq_take, if_pos hn]
  exact l.length_take_le n.toNat

theorem processPool_ok_some {pk ck sk : List Char} {ma mt : ℚ} {now : List Char}
    {pool : RawPool} {e : EnhancedPool}
    (h : processPool pk ck sk ma mt now pool = Except.ok (some e)) :
    e.symbol = upperStr (pool.symbol.getD []) ∧
    e.platform = pool.project.getD unknownStr ∧
    e.chain = pool.chain.getD unknownStr ∧
    e.pool_id = pool.pool.getD [] ∧
    e.last_updated = now ∧
    e.primary_stablecoin =
      (stablecoinIdentifiers.find? (fun s => subStr s e.symbol)).getD unknownStr ∧
    e.risk_level = (riskAssess e.apy e.tvl_usd (lowerStr (pool.project.getD []))).1 ∧
    e.risk_factors = (riskAssess e.apy e.tvl_usd (lowerStr (pool.project.getD []))).2 ∧
    e.il_risk = (if subStr "stableswap".toList (lowerStr e.symbol)
      then "Low".toList else "Medium".toList) ∧
    ma ≤ e.apy ∧ mt ≤ e.tvl_usd ∧
    (pk.isEmpty || subStr pk (lowerStr (pool.project.getD []))) = true ∧
    (ck.isEmpty || subStr ck (lowerStr (pool.chain.getD []))) = true ∧
    (sk.isEmpty || subStr sk e.symbol) = true ∧
    (pool.apy = none → e.apy = 0) ∧
    (pool.tvlUsd = none → e.tvl_usd = 0) := by
  simp only [processPool] at h
  split at h
  case isFalse => exact absurd h (by simp)
  split at h
  case isFalse => exact absurd h (by simp)
  rename_i hst hfilter
  split at h
  case h_1 => exact absurd h (by simp)
  rename_i apy hapy
  split at h
  case isFalse => exact absurd h (by simp)
  rename_i hma
  split at h
  case h_1 => exact absurd h (by simp)
  rename_i tvl htvl
  split at h
  case isFalse => exact absurd h (by simp)
  rename_i hmt
  simp only [Except.ok.injEq, Option.some.injEq] at h
  subst h
  simp only [Bool.and_eq_true] at hfilter
  refine ⟨rfl, rfl, rfl, rfl, rfl, rfl, rfl, rfl, rfl, hma, hmt,
    hfilter.1.1, hfilter.1.2, hfilter.2, ?_, ?_⟩
  · intro hnone
    rw [hnone] at hapy
    simp only [Option.getD_none, JNum.jnum.injEq] at hapy
    exact hapy.symm
  · intro hnone
    rw [hnone] at htvl
    simp only [Option.getD_none, JNum.jnum.injEq] at htvl
    exact htvl.symm

theorem processPool_no_error (pk ck sk : List Char) (ma mt : ℚ) (now : List Char)
    (pool : RawPool) (ha : pool.apy ≠ some JNum.jnull)
    (ht : pool.tvlUsd ≠ some JNum.jnull) :
    ∃ r, processPool pk ck sk ma mt now pool = Except.ok r := by
  simp only [processPool]
  split
  case isFalse => exact ⟨none, rfl⟩
  split
  case isFalse => exact ⟨none, rfl⟩
  split
  case h_1 heq =>
    exfalso
    cases hp : pool.apy with
    | none => rw [hp] at heq; simp at heq
    | some v =>
      rw [hp] at heq
      simp only [Option.getD_some] at heq
      exact ha (by rw [hp, heq])
  rename_i apy hapy
  split
  case isFalse => exact ⟨none, rfl⟩
  split
  case h_1 heq =>
    exfalso
    cases hp : pool.tvlUsd with
    | none => rw [hp] at heq; simp at heq
    | some v =>
      rw [hp] at heq
      simp only [Option.getD_some] at heq
      exact ht (by rw [hp, heq])
  rename_i tvl htvl
  split
  case isFalse => exact ⟨none, rfl⟩
  exact ⟨_, rfl⟩

theorem buildFiltered_mem {pk ck sk : List Char} {ma mt : ℚ} {now : List Char} :
    ∀ {data : List RawPool} {fp : List EnhancedPool},
    buildFiltered pk ck sk ma mt now data = Except.ok fp →
    ∀ {p : EnhancedPool}, p ∈ fp →
    ∃ pool ∈ data, processPool pk ck sk ma mt now pool = Except.ok (some p) := by
  intro data
  induction data with
  | nil =>
    intro fp h p hp
    simp only [buildFiltered, Except.ok.injEq] at h
    subst h
    exact absurd hp (List.not_mem_nil p)
  | cons pool rest ih =>
    intro fp h p hp
    simp only [buildFiltered] at h
    split at h
    · exact absurd h (by simp)
    · rcases ih h hp with ⟨pool', hmem, hproc⟩
      exact ⟨pool', List.mem_cons_of_mem _ hmem, hproc⟩
    · rename_i ep hep
      cases hb : buildFiltered pk ck sk ma mt now rest with
      | error e => rw [hb] at h; exact absurd h (by simp [Except.map])
      | ok l =>
        rw [hb] at h
        simp only [Except.map, Except.ok.injEq] at h
        subst h
        rcases List.mem_cons.mp hp with hp | hp
        · exact ⟨pool, List.mem_cons_self pool rest, hp ▸ hep⟩
        · rcases ih hb hp with ⟨pool', hmem, hproc⟩
          exact ⟨pool', List.mem_cons_of_mem _ hmem, hproc⟩

theorem buildFiltered_total (pk ck sk : List Char) (ma mt : ℚ) (now : List Char) :
    ∀ data : List RawPool,
    (∀ pool ∈ data, pool.apy ≠ some JNum.jnull ∧ pool.tvlUsd ≠ some JNum.jnull) →
    ∃ fp, buildFiltered pk ck sk ma mt now data = Except.ok fp := by
  intro data
  induction data with
  | nil => exact fun _ => ⟨[], rfl⟩
  | cons pool rest ih =>
    intro hnull
    have hhead := hnull pool (List.mem_cons_self pool rest)
    rcases ih (fun q hq => hnull q (List.mem_cons_of_mem _ hq)) with ⟨fp, hfp⟩
    rcases processPool_no_error pk ck sk ma mt now pool hhead.1 hhead.2 with ⟨r, hr⟩
    cases r with
    | none => exact ⟨fp, by simp only [buildFiltered, hr, hfp]⟩
    | some ep => exact ⟨ep :: fp, by simp only [buildFiltered, hr, hfp, Except.map]⟩

theorem cachedYields_mem {pk ck sk : List Char} {lim : Int} {ma mt : ℚ} {now : List Char}
    {data : List RawPool} {out : List EnhancedPool}
    (h : cachedYields pk ck sk lim ma mt now data = Except.ok out)
    {p : EnhancedPool} (hp : p ∈ out) :
    ∃ pool ∈ data, processPool pk ck sk ma mt now pool = Except.ok (some p) := by
  simp only [cachedYields] at h
  cases hb : buildFiltered pk ck sk ma mt now data with
  | error e => rw [hb] at h; exact absurd h (by simp [Except.map])
  | ok fp =>
    rw [hb] at h
    simp only [Except.map, Except.ok.injEq] at h
    subst h
    exact buildFiltered_mem hb (mem_sortPools.mp (mem_pyTake hp))

/-- C1: Filter correctness. For every query and every pool in the list the
yields pipeline returns, the APY is at least min_apy and the TVL at least
min_tvl, and each non-empty string filter (platform, chain, stablecoin) is a
substring of the corresponding pool attribute, case-insensitively: the
platform and chain keys arrive lowercased by get_yields and are tested
against the lowercased attribute, and the stablecoin key arrives uppercased
and is tested against the symbol attribute, which the pipeline stores
uppercased. -/
theorem c1_filter_correctness (pk ck sk : List Char) (lim : Int) (ma mt : ℚ)
    (now : List Char) (data : List RawPool) (out : List EnhancedPool)
    (h : cachedYields pk ck sk lim ma mt now data = Except.ok out)
    (p : EnhancedPool) (hp : p ∈ out) :
    ma ≤ p.apy ∧ mt ≤ p.tvl_usd ∧
    (pk ≠ [] → pk <:+: lowerStr p.platform) ∧
    (ck ≠ [] → ck <:+: lowerStr p.chain) ∧
    (sk ≠ [] → sk <:+: p.symbol) := by
  rcases cachedYields_mem h hp with ⟨pool, _, hproc⟩
  obtain ⟨hsym, hplat, hchain, -, -, -, -, -, -, hma, hmt, hfp, hfc, hfs, -, -⟩ :=
    processPool_ok_some hproc
  refine ⟨hma, hmt, ?_, ?_, ?_⟩
  · intro hne
    have hsub : subStr pk (lowerStr (pool.project.getD [])) = true := by
      rcases Bool.or_eq_true _ _ ▸ hfp with h1 | h1
      · exact absurd (List.isEmpty_iff.mp h1) hne
      · exact h1
    cases hproj : pool.project with
    | some s =>
      rw [hplat, hproj, Option.getD_some]
      rw [hproj, Option.getD_some] at hsub
      exact (subStr_iff _ _).mp hsub
    | none =>
      rw [hproj] at hsub
      simp only [Option.getD_none, lowerStr, List.map_nil, subStr,
        List.isEmpty_iff] at hsub
      exact absurd hsub hne
  · intro hne
    have hsub : subStr ck (lowerStr (pool.chain.getD [])) = true := by
      rcases Bool.or_eq_true _ _ ▸ hfc with h1 | h1
      · exact absurd (List.isEmpty_iff.mp h1) hne
      · exact h1
    cases hch : pool.chain with
    | some s =>
      rw [hchain, hch, Option.getD_some]
      rw [hch, Option.getD_some] at hsub
      exact (subStr_iff _ _).mp hsub
    | none =>
      rw [hch] at hsub
      simp only [Option.getD_none, lowerStr, List.map_nil, subStr,
        List.isEmpty_iff] at hsub
      exact absurd hsub hne
  · intro hne
    rcases Bool.or_eq_true _ _ ▸ hfs with h1 | h1
    · exact absurd (List.isEmpty_iff.mp h1) hne
    · exact (subStr_iff _ _).mp h1

theorem c1_filter_correctness_witness :
    ((1 : ℚ) ≤ 4) ∧ ((1000 : ℚ) ≤ 500000000) ∧
    ("aave".toList <:+: lowerStr "Aave".toList) ∧
    ("ethereum".toList <:+: lowerStr "Ethereum".toList) ∧
    ("USDC".toList <:+: "AUSDC".toList) := by
  have h := c1_filter_correctness "aave".toList "ethereum".toList "USDC".toList
    10 1 1000 []
    [⟨some "p1".toList, some "Aave".toList, some "aUSDC".toList,
      some "Ethereum".toList, some (JNum.jnum 4), some (JNum.jnum 500000000)⟩]
    [⟨"p1".toList, "Aave".toList, "AUSDC".toList, "Ethereum".toList,
      "USDC".toList, 4, 500000000, "Low-Medium".toList, [], "Medium".toList, []⟩]
    rfl
    ⟨"p1".toList, "Aave".toList, "AUSDC".toList, "Ethereum".toList,
      "USDC".toList, 4, 500000000, "Low-Medium".toList, [], "Medium".toList, []⟩
    (List.mem_singleton.mpr rfl)
  exact ⟨h.1, h.2.1, h.2.2.1 (by decide), h.2.2.2.1 (by decide), h.2.2.2.2 (by decide)⟩

/-- C10: every pool the yields pipeline returns has a risk level among
Low-Medium, Medium, Medium-High and High; the value Low is never produced,
because the derivation starts at Medium and the reputation bonus downgrades
at most one step to Low-Medium. -/
theorem c10_risk_level_range (pk ck sk : List Char) (lim : Int) (ma mt : ℚ)
    (now : List Char) (data : List RawPool) (out : List EnhancedPool)
    (h : cachedYields pk ck sk lim ma mt now data = Except.ok out)
    (p : EnhancedPool) (hp : p ∈ out) :
    p.risk_level ∈
      ["Low-Medium".toList, "Medium".toList, "Medium-High".toList, "High".toList] ∧
    p.risk_level ≠ "Low".toList := by
  rcases cachedYields_mem h hp with ⟨pool, _, hproc⟩
  obtain ⟨-, -, -, -, -, -, hr, -, -, -, -, -, -, -, -, -⟩ := processPool_ok_some hproc
  constructor
  · rw [hr]; exact riskAssess_fst_mem _ _ _
  · rw [hr]
    intro hlow
    have hmem := riskAssess_fst_mem p.apy p.tvl_usd (lowerStr (pool.project.getD []))
    rw [hlow] at hmem
    exact absurd hmem (by decide)

theorem c10_risk_level_range_witness :
    "Low-Medium".toList ∈
      ["Low-Medium".toList, "Medium".toList, "Medium-High".toList, "High".toList] ∧
    "Low-Medium".toList ≠ "Low".toList := by
  have h := c10_risk_level_range [] [] [] 10 0 0 []
    [⟨some "p1".toList, some "Aave".toList, some "aUSDC".toList,
      some "Ethereum".toList, some (JNum.jnum 4), some (JNum.jnum 500000000)⟩]
    [⟨"p1".toList, "Aave".toList, "AUSDC".toList, "Ethereum".toList,
      "USDC".toList, 4, 500000000, "Low-Medium".toList, [], "Medium".toList, []⟩]
    rfl
    ⟨"p1".toList, "Aave".toList, "AUSDC".toList, "Ethereum".toList,
      "USDC".toList, 4, 500000000, "Low-Medium".toList, [], "Medium".toList, []⟩
    (List.mem_singleton.mpr rfl)
  exact h

/-- C2: Ranking order. In the list the yields pipeline returns, every
adjacent pair is ordered by non-increasing APY (stated as pairwise order,
which implies the adjacent-pair property), and pools of any equal APY value
appear as an order-preserving sublist of the filtered pools listed in
original fetch order: the sort is stable. -/
theorem c2_ranking_order (pk ck sk : List Char) (lim : Int) (ma mt : ℚ)
    (now : List Char) (data : List RawPool) (out : List EnhancedPool)
    (h : cachedYields pk ck sk lim ma mt now data = Except.ok out) :
    out.Pairwise (fun a b => b.apy ≤ a.apy) ∧
    ∀ (c : ℚ) (fp : List EnhancedPool),
      buildFiltered pk ck sk ma mt now data = Except.ok fp →
      List.Sublist (out.filter (fun p => p.apy = c)) (fp.filter (fun p => p.apy = c)) := by
  simp only [cachedYields] at h
  cases hb : buildFiltered pk ck sk ma mt now data with
  | error e => rw [hb] at h; exact absurd h (by simp [Except.map])
  | ok fp0 =>
    rw [hb] at h
    simp only [Except.map, Except.ok.injEq] at h
    subst h
    constructor
    · exact (sorted_sortPools fp0).sublist (pyTake_sublist _ _)
    · intro c fp hfp
      injection hfp with hfp
      subst hfp
      rw [← filter_sortPools c fp0]
      exact (pyTake_sublist lim (sortPools fp0)).filter _

theorem c2_ranking_order_witness :
    ([(⟨"b".toList, "y".toList, "USDT".toList, "E".toList, "USDT".toList, 7, 2000000,
        "Medium".toList, ["Moderate TVL".toList], "Medium".toList, []⟩ : EnhancedPool),
      ⟨"a".toList, "x".toList, "USDC".toList, "E".toList, "USDC".toList, 3, 2000000,
        "Medium".toList, ["Moderate TVL".toList], "Medium".toList, []⟩,
      ⟨"c".toList, "z".toList, "DAI".toList, "E".toList, "DAI".toList, 3, 2000000,
        "Medium".toList, ["Moderate TVL".toList], "Medium".toList, []⟩] :
      List EnhancedPool).Pairwise (fun a b => b.apy ≤ a.apy) ∧
    List.Sublist
      (([(⟨"b".toList, "y".toList, "USDT".toList, "E".toList, "USDT".toList, 7, 2000000,
          "Medium".toList, ["Moderate TVL".toList], "Medium".toList, []⟩ : EnhancedPool),
        ⟨"a".toList, "x".toList, "USDC".toList, "E".toList, "USDC".toList, 3, 2000000,
          "Medium".toList, ["Moderate TVL".toList], "Medium".toList, []⟩,
        ⟨"c".toList, "z".toList, "DAI".toList, "E".toList, "DAI".toList, 3, 2000000,
          "Medium".toList, ["Moderate TVL".toList], "Medium".toList, []⟩] :
        List EnhancedPool).filter (fun p => p.apy = 3))
      (([(⟨"a".toList, "x".toList, "USDC".toList, "E".toList, "USDC".toList, 3, 2000000,
          "Medium".toList, ["Moderate TVL".toList], "Medium".toList, []⟩ : EnhancedPool),
        ⟨"b".toList, "y".toList, "USDT".toList, "E".toList, "USDT".toList, 7, 2000000,
          "Medium".toList, ["Moderate TVL".toList], "Medium".toList, []⟩,
        ⟨"c".toList, "z".toList, "DAI".toList, "E".toList, "DAI".toList, 3, 2000000,
          "Medium".toList, ["Moderate TVL".toList], "Medium".toList, []⟩] :
        List EnhancedPool).filter (fun p => p.apy = 3)) := by
  have h := c2_ranking_order [] [] [] 20 0 0 []
    [⟨some "a".toList, some "x".toList, some "USDC".toList, some "E".toList,
        some (JNum.jnum 3), some (JNum.jnum 2000000)⟩,
      ⟨some "b".toList, some "y".toList, some "USDT".toList, some "E".toList,
        some (JNum.jnum 7), some (JNum.jnum 2000000)⟩,
      ⟨some "c".toList, some "z".toList, some "DAI".toList, some "E".toList,
        some (JNum.jnum 3), some (JNum.jnum 2000000)⟩]
    [⟨"b".toList, "y".toList, "USDT".toList, "E".toList, "USDT".toList, 7, 2000000,
        "Medium".toList, ["Moderate TVL".toList], "Medium".toList, []⟩,
      ⟨"a".toList, "x".toList, "USDC".toList, "E".toList, "USDC".toList, 3, 2000000,
        "Medium".toList, ["Moderate TVL".toList], "Medium".toList, []⟩,
      ⟨"c".toList, "z".toList, "DAI".toList, "E".toList, "DAI".toList, 3, 2000000,
        "Medium".toList, ["Moderate TVL".toList], "Medium".toList, []⟩]
    rfl
  exact ⟨h.1, h.2 3 _ rfl⟩

/-- C3 (amended): the list returned by the yields endpoint never exceeds the
effective limit; a successfully parsed numeric limit is clamped into the
interval from 1 to 100 by max(1, min(limit, 100)), so input 500 gives 100,
while a non-numeric limit falls back to the default 20 through the
ValueError handler. Input -5 gives the lower clamp bound 1, not the default
20 claimed by the spec. -/
theorem c3_limit_bound :
    (∀ (r : RawQuery) (now : List Char) (data : List RawPool) (out : List EnhancedPool),
      getYields r now data = Except.ok out → out.length ≤ (parseQuery r).limit.toNat) ∧
    (∀ r : RawQuery, 1 ≤ (parseQuery r).limit ∧ (parseQuery r).limit ≤ 100) ∧
    (parseQuery { limit := RawParam.intStr 500 }).limit = 100 ∧
    (parseQuery { limit := RawParam.malformed }).limit = 20 := by
  have hclamp : ∀ r : RawQuery, 1 ≤ (parseQuery r).limit ∧ (parseQuery r).limit ≤ 100 := by
    intro r
    simp only [parseQuery]
    split
    · rename_i l a t heq1 heq2 heq3
      exact ⟨le_max_left 1 _, max_le (by norm_num) (min_le_right l 100)⟩
    · exact ⟨by norm_num, by norm_num⟩
  refine ⟨?_, hclamp, by decide, by decide⟩
  intro r now data out h
  simp only [getYields, cachedYields] at h
  cases hb : buildFiltered (parseQuery r).platform (parseQuery r).chain
      (parseQuery r).stablecoin (parseQuery r).minApy (parseQuery r).minTvl now data with
  | error e => rw [hb] at h; exact absurd h (by simp [Except.map])
  | ok fp =>
    rw [hb] at h
    simp only [Except.map, Except.ok.injEq] at h
    subst h
    exact length_pyTake_le (le_trans (by norm_num) (hclamp r).1) _

theorem c3_limit_bound_witness :
    ([(⟨"b".toList, "y".toList, "USDT".toList, "E".toList, "USDT".toList, 7, 2000000,
        "Medium".toList, ["Moderate TVL".toList], "Medium".toList, []⟩ : EnhancedPool),
      ⟨"a".toList, "x".toList, "USDC".toList, "E".toList, "USDC".toList, 3, 2000000,
        "Medium".toList, ["Moderate TVL".toList], "Medium".toList, []⟩] :
      List EnhancedPool).length ≤ (20 : Int).toNat ∧
    (1 ≤ (parseQuery { limit := RawParam.intStr 37 }).limit ∧
      (parseQuery { limit := RawParam.intStr 37 }).limit ≤ 100) := by
  refine ⟨?_, c3_limit_bound.2.1 _⟩
  exact c3_limit_bound.1 {} []
    [⟨some "a".toList, some "x".toList, some "USDC".toList, some "E".toList,
        some (JNum.jnum 3), some (JNum.jnum 2000000)⟩,
      ⟨some "b".toList, some "y".toList, some "USDT".toList, some "E".toList,
        some (JNum.jnum 7), some (JNum.jnum 2000000)⟩]
    [⟨"b".toList, "y".toList, "USDT".toList, "E".toList, "USDT".toList, 7, 2000000,
        "Medium".toList, ["Moderate TVL".toList], "Medium".toList, []⟩,
      ⟨"a".toList, "x".toList, "USDC".toList, "E".toList, "USDC".toList, 3, 2000000,
        "Medium".toList, ["Moderate TVL".toList], "Medium".toList, []⟩]
    rfl

theorem c3_limit_bound_counterexample :
    (parseQuery { limit := RawParam.intStr (-5) }).limit = 1 ∧
    (parseQuery { limit := RawParam.intStr (-5) }).limit ≠ 20 := by
  exact ⟨by decide, by decide⟩

/-- C4: for every pool the yields pipeline returns, the stored risk level
equals the spec section 4.4 precedence rules applied to the pool's APY, TVL
and lowercased platform, and the escalation example holds: APY 20, TVL
50,000,000, platform Aave gives High. -/
theorem c4_risk_level_derivation :
    (∀ (pk ck sk : List Char) (lim : Int) (ma mt : ℚ) (now : List Char)
      (data : List RawPool) (out : List EnhancedPool),
      cachedYields pk ck sk lim ma mt now data = Except.ok out →
      ∀ p : EnhancedPool, p ∈ out →
      p.risk_level = riskLevelSpecRules p.apy p.tvl_usd (lowerStr p.platform)) ∧
    (riskAssess 20 50000000 (lowerStr "Aave".toList)).1 = "High".toList := by
  constructor
  · intro pk ck sk lim ma mt now data out h p hp
    rcases cachedYields_mem h hp with ⟨pool, _, hproc⟩
    obtain ⟨-, hplat, -, -, -, -, hr, -, -, -, -, -, -, -, -, -⟩ :=
      processPool_ok_some hproc
    rw [hr, hplat]
    cases hproj : pool.project with
    | some s =>
      simp only [Option.getD_some]
      rw [riskAssess_fst_eq_spec]
    | none =>
      simp only [Option.getD_none]
      rw [riskAssess_not_top p.apy p.tvl_usd (lowerStr []) (lowerStr unknownStr)
        (by decide) (by decide), riskAssess_fst_eq_spec]
  · decide

theorem c4_risk_level_derivation_witness :
    "Medium".toList = riskLevelSpecRules 12 2000000 (lowerStr "Compound".toList) := by
  exact c4_risk_level_derivation.1 [] [] [] 10 0 0 []
    [⟨some "c1".toList, some "Compound".toList, some "DAI".toList,
      some "Ethereum".toList, some (JNum.jnum 12), some (JNum.jnum 2000000)⟩]
    [⟨"c1".toList, "Compound".toList, "DAI".toList, "Ethereum".toList,
      "DAI".toList, 12, 2000000, "Medium".toList,
      ["Higher than average APY".toList, "Moderate TVL".toList], "Medium".toList, []⟩]
    rfl
    ⟨"c1".toList, "Compound".toList, "DAI".toList, "Ethereum".toList,
      "DAI".toList, 12, 2000000, "Medium".toList,
      ["Higher than average APY".toList, "Moderate TVL".toList], "Medium".toList, []⟩
    (List.mem_singleton.mpr rfl)

/-- C5 (amended): the yields endpoint always clamps or defaults its numeric
parameters and never fails at the parse boundary: its effective limit is
always in the interval from 1 to 100 and a non-numeric limit, min_apy or
min_tvl resets all three to the defaults 20, 0, 0 through the ValueError
handler. The historical-yields endpoint and the portfolio endpoint, by
contrast, convert days and amount with a bare int() and float(), so a
non-numeric value there propagates as an unhandled error. -/
theorem c5_invalid_query_tolerance :
    (∀ r : RawQuery, 1 ≤ (parseQuery r).limit ∧ (parseQuery r).limit ≤ 100) ∧
    (∀ r : RawQuery,
      r.limit = RawParam.malformed ∨ r.min_apy = RawParam.malformed ∨
        r.min_tvl = RawParam.malformed →
      (parseQuery r).limit = 20 ∧ (parseQuery r).minApy = 0 ∧ (parseQuery r).minTvl = 0) ∧
    (∀ (pid : Option (List Char)) (data : Option (List HistItem)),
      getHistoricalYields pid RawParam.malformed data = HistResponse.unhandledError) ∧
    (∀ riskP : Option (List Char),
      portfolioBoundary riskP RawParam.malformed = PortfolioParams.unhandledError) := by
  refine ⟨?_, ?_, ?_, ?_⟩
  · intro r
    simp only [parseQuery]
    split
    · rename_i l a t heq1 heq2 heq3
      exact ⟨le_max_left 1 _, max_le (by norm_num) (min_le_right l 100)⟩
    · exact ⟨by norm_num, by norm_num⟩
  · intro r hm
    rcases hm with h | h | h
    · cases ha : parseFloatParam r.min_apy 0 <;> cases ht : parseFloatParam r.min_tvl 0 <;>
        simp [parseQuery, h, parseIntParam, ha, ht]
    · cases hl : parseIntParam r.limit 20 <;> cases ht : parseFloatParam r.min_tvl 0 <;>
        simp [parseQuery, h, parseFloatParam, hl, ht]
    · cases hl : parseIntParam r.limit 20 <;> cases ha : parseFloatParam r.min_apy 0 <;>
        simp [parseQuery, h, parseFloatParam, hl, ha]
  · intro pid data
    simp [getHistoricalYields, parseIntParam]
  · intro riskP
    simp [portfolioBoundary, parseFloatParam]

theorem c5_invalid_query_tolerance_witness :
    (1 ≤ (parseQuery { min_apy := RawParam.malformed }).limit ∧
      (parseQuery { min_apy := RawParam.malformed }).limit ≤ 100) ∧
    ((parseQuery { min_apy := RawParam.malformed }).limit = 20 ∧
      (parseQuery { min_apy := RawParam.malformed }).minApy = 0 ∧
      (parseQuery { min_apy := RawParam.malformed }).minTvl = 0) ∧
    getHistoricalYields (some "abc".toList) RawParam.malformed (some []) =
      HistResponse.unhandledError ∧
    portfolioBoundary (some "low".toList) RawParam.malformed =
      PortfolioParams.unhandledError := by
  exact ⟨c5_invalid_query_tolerance.1 _,
    c5_invalid_query_tolerance.2.1 _ (Or.inr (Or.inl rfl)),
    c5_invalid_query_tolerance.2.2.1 _ _,
    c5_invalid_query_tolerance.2.2.2 _⟩

theorem c5_invalid_query_counterexample :
    getHistoricalYields (some "abc".toList) RawParam.malformed
      (some [{ apy := some 5 }]) = HistResponse.unhandledError ∧
    portfolioBoundary (some "medium".toList) RawParam.malformed =
      PortfolioParams.unhandledError := ⟨rfl, rfl⟩

/-- First identifier of the enumeration contained in the symbol, as worded in
spec section 4.2: the identifiers are tried in enumeration order and the
first one that is a substring of the symbol is returned. -/
def firstContained : List (List Char) → List Char → Option (List Char)
  | [], _ => none
  | s :: rest, sym => if s <:+: sym then some s else firstContained rest sym

theorem find?_subStr_eq_firstContained (sym : List Char) :
    ∀ ids : List (List Char),
      ids.find? (fun s => subStr s sym) = firstContained ids sym := by
  intro ids
  induction ids with
  | nil => rfl
  | cons s rest ih =>
    by_cases hs : s <:+: sym
    · rw [List.find?_cons_of_pos (p := fun t => subStr t sym) (a := s) rest
        ((subStr_iff _ _).mpr hs)]
      simp only [firstContained]
      rw [if_pos hs]
    · rw [List.find?_cons_of_neg (p := fun t => subStr t sym) (a := s) rest
        (fun hc => hs ((subStr_iff _ _).mp hc))]
      simp only [firstContained]
      rw [if_neg hs]
      exact ih

theorem c6_normalizer_counterexample :
    cachedYields [] [] [] 20 0 0 []
      [{ symbol := some "USDC".toList, apy := some JNum.jnull }] =
      Except.error () := rfl

/-- C6 (amended): normalization is total on inputs whose present apy and
tvlUsd fields are numbers, and a missing apy or tvlUsd is defaulted to 0 in
the constructed pool; the primary stablecoin is the first identifier of the
enumeration contained in the uppercased symbol. A present-but-null apy or
tvlUsd, however, is left in place by dict.get and the subsequent comparison
fails, as the counterexample shows: the stage is not total on null. -/
theorem c6_normalizer :
    (∀ (pk ck sk : List Char) (lim : Int) (ma mt : ℚ) (now : List Char)
      (data : List RawPool),
      (∀ pool ∈ data, pool.apy ≠ some JNum.jnull ∧ pool.tvlUsd ≠ some JNum.jnull) →
      ∃ out, cachedYields pk ck sk lim ma mt now data = Except.ok out) ∧
    (∀ (pk ck sk : List Char) (ma mt : ℚ) (now : List Char) (pool : RawPool)
      (e : EnhancedPool),
      processPool pk ck sk ma mt now pool = Except.ok (some e) →
      (pool.apy = none → e.apy = 0) ∧ (pool.tvlUsd = none → e.tvl_usd = 0) ∧
      e.primary_stablecoin = (firstContained stablecoinIdentifiers e.symbol).getD unknownStr) := by
  constructor
  · intro pk ck sk lim ma mt now data hnull
    rcases buildFiltered_total pk ck sk ma mt now data hnull with ⟨fp, hfp⟩
    exact ⟨pyTake lim (sortPools fp), by simp only [cachedYields, hfp, Except.map]⟩
  · intro pk ck sk ma mt now pool e hproc
    obtain ⟨hsym, -, -, -, -, hprim, -, -, -, -, -, -, -, -, hap, htv⟩ :=
      processPool_ok_some hproc
    exact ⟨hap, htv, by rw [hprim, find?_subStr_eq_firstContained]⟩

theorem c6_normalizer_witness :
    (∃ out, cachedYields [] [] [] 20 0 0 []
      [{ symbol := some "USDC".toList }] = Except.ok out) ∧
    ((0 : ℚ) = 0 ∧ (0 : ℚ) = 0 ∧
      "USDC".toList = (firstContained stablecoinIdentifiers "USDC".toList).getD unknownStr) := by
  constructor
  · exact c6_normalizer.1 [] [] [] 20 0 0 [] _ (by decide)
  · have h := c6_normalizer.2 [] [] [] 0 0 [] { symbol := some "USDC".toList }
      ⟨[], unknownStr, "USDC".toList, unknownStr, "USDC".toList, 0, 0,
        "High".toList, ["Very low TVL".toList], "Medium".toList, []⟩
      rfl
    exact ⟨h.1 rfl, h.2.1 rfl, h.2.2⟩

/-- A concrete payload used to exercise the cache model. -/
def yieldsDemoPayload : Except Unit (List EnhancedPool) := Except.ok []

/-- The empty yields cache. -/
def yieldsEmptyCache :
    TTLCacheState (List Char × List Char × List Char × Int × ℚ × ℚ)
      (Except Unit (List EnhancedPool)) := ⟨[]⟩

/-- C7: cache hit suppresses fetch. Starting from a cache with no live entry
for the key of a query, a first call at time t0 and a second call with the
identical query at any time t1 inside the TTL window trigger exactly one
computation of the payload in total, and the second call returns the stored
payload; moreover the memoization key is the tuple of all six query
parameters, so two queries with the same key are the same query and queries
differing in any parameter never share a cache entry. -/
theorem c7_cache_hit_suppresses_fetch :
    (∀ (q : QuerySpec) (payload : Except Unit (List EnhancedPool))
      (c : TTLCacheState (List Char × List Char × List Char × Int × ℚ × ℚ)
        (Except Unit (List EnhancedPool)))
      (t0 t1 : ℕ),
      cacheLookup t0 (yieldsCacheKey q) c = none → t0 ≤ t1 → t1 < t0 + yieldTTL →
      (getOrCompute t0 yieldTTL (yieldsCacheKey q) payload c).2.2 +
        (getOrCompute t1 yieldTTL (yieldsCacheKey q) payload
          (getOrCompute t0 yieldTTL (yieldsCacheKey q) payload c).2.1).2.2 = 1 ∧
      (getOrCompute t1 yieldTTL (yieldsCacheKey q) payload
        (getOrCompute t0 yieldTTL (yieldsCacheKey q) payload c).2.1).1 = payload) ∧
    (∀ q q' : QuerySpec, yieldsCacheKey q = yieldsCacheKey q' → q = q') := by
  constructor
  · intro q payload c t0 t1 hmiss h01 h1ttl
    have hc1 : getOrCompute t0 yieldTTL (yieldsCacheKey q) payload c =
        (payload, ⟨(yieldsCacheKey q, payload, t0 + yieldTTL) :: c.entries⟩, 1) := by
      simp only [getOrCompute, hmiss]
    rw [hc1]
    have hl : cacheLookup t1 (yieldsCacheKey q)
        ⟨(yieldsCacheKey q, payload, t0 + yieldTTL) :: c.entries⟩ = some payload := by
      simp only [cacheLookup]
      rw [List.find?_cons_of_pos _ (by simp [h1ttl])]
      rfl
    simp [getOrCompute, hl]
  · intro q q' h
    simp only [yieldsCacheKey, Prod.mk.injEq] at h
    obtain ⟨h1, h2, h3, h4, h5, h6⟩ := h
    cases q
    cases q'
    simp_all

theorem c7_cache_hit_witness :
    (getOrCompute 0 yieldTTL (yieldsCacheKey ⟨[], [], [], 20, 0, 0⟩)
        yieldsDemoPayload yieldsEmptyCache).2.2 +
      (getOrCompute 10 yieldTTL (yieldsCacheKey ⟨[], [], [], 20, 0, 0⟩)
        yieldsDemoPayload
        (getOrCompute 0 yieldTTL (yieldsCacheKey ⟨[], [], [], 20, 0, 0⟩)
          yieldsDemoPayload yieldsEmptyCache).2.1).2.2 = 1 ∧
    (getOrCompute 10 yieldTTL (yieldsCacheKey ⟨[], [], [], 20, 0, 0⟩)
      yieldsDemoPayload
      (getOrCompute 0 yieldTTL (yieldsCacheKey ⟨[], [], [], 20, 0, 0⟩)
        yieldsDemoPayload yieldsEmptyCache).2.1).1 = yieldsDemoPayload := by
  exact c7_cache_hit_suppresses_fetch.1 ⟨[], [], [], 20, 0, 0⟩
    yieldsDemoPayload yieldsEmptyCache 0 10 rfl (by norm_num) (by norm_num [yieldTTL])

theorem c8_trend_counterexample :
    cachedHistorical "p1".toList 30 (some [{ apy := some 5 }, { apy := some 5 }]) =
      HistResult.full "p1".toList [⟨[], 5, 0⟩, ⟨[], 5, 0⟩] 5 0 0 "Stable".toList ∧
    "Stable".toList ≠ "Decreasing".toList := by
  constructor
  · norm_num [cachedHistorical, pyTailSlice, HistResult.full.injEq]
  · decide

/-- C8 (amended): the trend label of any historical comparison with at least
two data points is three-valued, not binary: Increasing when the APY change
is positive, Decreasing when it is negative, and Stable when the current and
past APY are equal; equal APYs therefore yield Stable, not Decreasing. -/
theorem c8_trend_labels (pid : List Char) (days : Int) (data : Option (List HistItem))
    (p2 : List Char) (pts : List HistPoint) (cur ch pct : ℚ) (tr : List Char)
    (h : cachedHistorical pid days data = HistResult.full p2 pts cur ch pct tr) :
    (0 < ch → tr = "Increasing".toList) ∧ (ch < 0 → tr = "Decreasing".toList) ∧
    (ch = 0 → tr = "Stable".toList) := by
  simp only [cachedHistorical] at h
  split at h
  case h_1 => exact absurd h (by simp)
  rename_i items
  split at h
  case isTrue => exact absurd h (by simp)
  split at h
  case isFalse => exact absurd h (by simp)
  simp only [HistResult.full.injEq] at h
  obtain ⟨-, -, -, hch, -, htr⟩ := h
  subst hch
  subst htr
  refine ⟨fun hc => ?_, fun hc => ?_, fun hc => ?_⟩
  · rw [if_pos hc]
  · rw [if_neg (not_lt.mpr (le_of_lt hc)), if_pos hc]
  · rw [if_neg (by rw [hc]; exact lt_irrefl 0), if_neg (by rw [hc]; exact lt_irrefl 0)]

theorem c8_trend_labels_witness :
    (0 < (4 : ℚ) → "Increasing".toList = "Increasing".toList) ∧
    ((4 : ℚ) < 0 → "Increasing".toList = "Decreasing".toList) ∧
    ((4 : ℚ) = 0 → "Increasing".toList = "Stable".toList) := by
  exact c8_trend_labels "p1".toList 30 (some [{ apy := some 1 }, { apy := some 5 }])
    "p1".toList [⟨[], 1, 0⟩, ⟨[], 5, 0⟩] 5 4 400 "Increasing".toList
    (by norm_num [cachedHistorical, pyTailSlice, HistResult.full.injEq])

theorem c9_liquidity_counterexample :
    cachedYields [] [] [] 20 0 0 []
      [⟨some "id1".toList, some "platx".toList, some "usdc-pool".toList,
        some "Ethereum".toList, some (JNum.jnum 5), some (JNum.jnum 400000000)⟩] =
      Except.ok [⟨"id1".toList, "platx".toList, "USDC-POOL".toList, "Ethereum".toList,
        "USDC".toList, 5, 400000000, "Medium".toList, [], "Medium".toList, []⟩] ∧
    (300000000 : ℚ) < 400000000 ∧
    FieldVal.fstr "Healthy".toList ∉
      (toFields ⟨"id1".toList, "platx".toList, "USDC-POOL".toList, "Ethereum".toList,
        "USDC".toList, 5, 400000000, "Medium".toList, [], "Medium".toList, []⟩).map
        Prod.snd ∧
    FieldVal.fstr "Degraded".toList ∉
      (toFields ⟨"id1".toList, "platx".toList, "USDC-POOL".toList, "Ethereum".toList,
        "USDC".toList, 5, 400000000, "Medium".toList, [], "Medium".toList, []⟩).map
        Prod.snd := by
  exact ⟨rfl, by norm_num, by decide, by decide⟩

/-- C9 (amended): the yields pipeline attaches no liquidity-health label at
all. Every returned pool record carries exactly the eleven dictionary keys
written on src/app.py lines 267-279 — none of them a liquidity-health field,
and the values Healthy and Degraded never occur (see the counterexample for
a pool whose TVL exceeds 300,000,000) — and the only additional flag is
il_risk, which is Low when stableswap is a substring of the lowercased
symbol and Medium otherwise. -/
theorem c9_no_liquidity_label (pk ck sk : List Char) (lim : Int) (ma mt : ℚ)
    (now : List Char) (data : List RawPool) (out : List EnhancedPool)
    (h : cachedYields pk ck sk lim ma mt now data = Except.ok out)
    (p : EnhancedPool) (hp : p ∈ out) :
    (toFields p).map Prod.fst =
      ["pool_id".toList, "platform".toList, "symbol".toList, "chain".toList,
       "primary_stablecoin".toList, "apy".toList, "tvl_usd".toList,
       "risk_level".toList, "risk_factors".toList, "il_risk".toList,
       "last_updated".toList] ∧
    p.il_risk = (if subStr "stableswap".toList (lowerStr p.symbol)
      then "Low".toList else "Medium".toList) := by
  rcases cachedYields_mem h hp with ⟨pool, -, hproc⟩
  obtain ⟨-, -, -, -, -, -, -, -, hil, -, -, -, -, -, -, -⟩ := processPool_ok_some hproc
  exact ⟨rfl, hil⟩

theorem c9_no_liquidity_label_witness :
    (toFields ⟨"id1".toList, "platx".toList, "USDC-POOL".toList, "Ethereum".toList,
      "USDC".toList, 5, 400000000, "Medium".toList, [], "Medium".toList, []⟩).map
      Prod.fst =
      ["pool_id".toList, "platform".toList, "symbol".toList, "chain".toList,
       "primary_stablecoin".toList, "apy".toList, "tvl_usd".toList,
       "risk_level".toList, "risk_factors".toList, "il_risk".toList,
       "last_updated".toList] ∧
    "Medium".toList = (if subStr "stableswap".toList (lowerStr "USDC-POOL".toList)
      then "Low".toList else "Medium".toList) := by
  exact c9_no_liquidity_label [] [] [] 20 0 0 []
    [⟨some "id1".toList, some "platx".toList, some "usdc-pool".toList,
      some "Ethereum".toList, some (JNum.jnum 5), some (JNum.jnum 400000000)⟩]
    [⟨"id1".toList, "platx".toList, "USDC-POOL".toList, "Ethereum".toList,
      "USDC".toList, 5, 400000000, "Medium".toList, [], "Medium".toList, []⟩]
    rfl
    ⟨"id1".toList, "platx".toList, "USDC-POOL".toList, "Ethereum".toList,
      "USDC".toList, 5, 400000000, "Medium".toList, [], "Medium".toList, []⟩
    (List.mem_singleton.mpr rfl)

end StablecoinYields
